import Mathlib

/-!
Verification development for the timing kernel of the NDS emulator core
(`src/core/src/hw/scheduler.rs`, `src/core/src/hw/spu/mod.rs`,
`src/core/src/hw/mmu/mod.rs`).  The Rust code is shallowly embedded:
machine integers become `Nat` with explicit `% 2^w` where wrapping
matters, fallible paths become `Option`, and the mutable scheduler state
becomes explicit state passing.
-/

namespace NDSEmu

/-! ## Scheduler data model (scheduler.rs, spu ChannelSpec) -/

/-- Embeds `spu::ChannelSpec` (spu/mod.rs lines 249-254). -/
inductive ChannelSpec
  | Base (num : Nat)
  | PSG (num : Nat)
  | Noise (num : Nat)
deriving DecidableEq

/-- Embeds `Event` (scheduler.rs lines 316-328).  Payloads are the small
integers and booleans of the Rust enum; equality is structural, as the
derived `PartialEq`/`Hash` compare by value. -/
inductive Event
  | DMA (is_nds9 : Bool) (num : Nat)
  | StartNextLine
  | HBlank
  | VBlank
  | TimerOverflow (is_nds9 : Bool) (num : Nat)
  | ROMWordTransfered
  | ROMBlockEnded (is_arm7 : Bool)
  | GenerateAudioSample
  | StepAudioChannel (spec : ChannelSpec)
  | ResetAudioChannel (spec : ChannelSpec)
deriving DecidableEq

/-- Embeds `EventWrapper` (scheduler.rs lines 330-342).  The stored
handler `fn(&mut HW, Event)` is modelled as an opaque numeric tag (the
source only ever stores `HW::handle_event`, tag `0`).  The `PartialEq`
and `Hash` impls (lines 344-356) compare the `event` field only and
ignore the handler; all queue-key operations below therefore match on
`.event` alone. -/
structure EventWrapper where
  event : Event
  handler : Nat
deriving DecidableEq

/-- A pending queue entry: the wrapper together with its due cycle (the
`Reverse<usize>` priority of the `PriorityQueue`). -/
def QEntry : Type := EventWrapper × Nat

instance : DecidableEq QEntry := instDecidableEqProd

/-- Selects the entry with the least due cycle together with the rest of
the queue, modelling `peek`/`pop` of `PriorityQueue<EventWrapper,
Reverse<usize>>`: the maximal `Reverse` priority is the minimal cycle.
Ties are broken towards the front of the list; the crate leaves the tie
order unspecified and no claim depends on it. -/
def popMin : List QEntry → Option (QEntry × List QEntry)
  | [] => none
  | e :: es =>
    match popMin es with
    | none => some (e, [])
    | some (m, rest) => if e.2 ≤ m.2 then some (e, es) else some (m, e :: rest)

/-- Inserts an entry, modelling `PriorityQueue::push` (used by
`Scheduler::schedule`, scheduler.rs lines 301-304): if a wrapper equal
to the pushed one (same `event`, handler ignored) is already present its
priority is updated in place, otherwise a fresh wrapper (handler
`HW::handle_event`, tag `0`) is inserted. -/
def pushQ (q : List QEntry) (e : Event) (due : Nat) : List QEntry :=
  if q.any (fun p => p.1.event == e) then
    q.map (fun p => if p.1.event == e then (p.1, due) else p)
  else
    (⟨e, 0⟩, due) :: q

/-- Removes a pending entry matching the event, modelling
`PriorityQueue::remove` as used by `Scheduler::remove` (scheduler.rs
lines 310-313): the probe wrapper compares equal to a stored entry when
the events are equal, the stored handler being ignored, and at most one
entry is removed (the queue is keyed by wrapper equality). -/
def removeQ (q : List QEntry) (e : Event) : List QEntry :=
  q.eraseP (fun p => p.1.event == e)

/-- Embeds the `Scheduler` struct (scheduler.rs lines 279-282): the
global cycle counter plus the event queue. -/
structure Scheduler where
  cycle : Nat
  queue : List QEntry
deriving DecidableEq

/-- Embeds `Scheduler::new` (scheduler.rs lines 285-291). -/
def Scheduler.new : Scheduler := ⟨0, []⟩

/-- Embeds `Scheduler::schedule` (scheduler.rs lines 301-304): pushes
the event with due cycle `self.cycle + delay`. -/
def Scheduler.schedule (s : Scheduler) (e : Event) (delay : Nat) : Scheduler :=
  { s with queue := pushQ s.queue e (s.cycle + delay) }

/-- Embeds `Scheduler::run_now` (scheduler.rs lines 306-308). -/
def Scheduler.run_now (s : Scheduler) (e : Event) : Scheduler :=
  s.schedule e 0

/-- Embeds `Scheduler::remove` (scheduler.rs lines 310-313). -/
def Scheduler.remove (s : Scheduler) (e : Event) : Scheduler :=
  { s with queue := removeQ s.queue e }

/-- Outcome of one consultation of the queue by the dispatch loop,
embedding `Scheduler::get_next_event` (scheduler.rs lines 293-299). -/
inductive NextEvent
  | panicked
  | notDue
  | due (entry : QEntry) (rest : List QEntry)
deriving DecidableEq

/-- Embeds `Scheduler::get_next_event` (scheduler.rs lines 293-299):
`peek().unwrap()` aborts on an empty queue (`panicked`); otherwise the
earliest entry is popped iff `Reverse(self.cycle) <= *cycle`, i.e. iff
its due cycle is at most the current cycle. -/
def get_next_event (cycle : Nat) (q : List QEntry) : NextEvent :=
  match popMin q with
  | none => .panicked
  | some (m, rest) => if m.2 ≤ cycle then .due m rest else .notDue

/-- Result of draining the queue: the list of dispatched entries, and on
normal return the remaining queue.  `outOfFuel` is an artifact of the
embedding (the Rust loop has no fuel); theorems about normal returns are
stated for `.ok` results, which coincide with terminating Rust runs. -/
inductive DrainResult
  | ok (dispatched : List QEntry) (q : List QEntry)
  | panicked (dispatched : List QEntry)
  | outOfFuel (dispatched : List QEntry)
deriving DecidableEq

/-- Embeds the dispatch loop of `HW::handle_events` (scheduler.rs lines
19-21): while `get_next_event` yields an entry, invoke its handler.  A
handler (`HW::handle_event`) may schedule and cancel events, which the
embedding abstracts as an arbitrary queue transformer receiving the
event, the current cycle and the queue. -/
def drain (handler : Event → Nat → List QEntry → List QEntry) :
    Nat → Nat → List QEntry → DrainResult
  | 0, _, _ => .outOfFuel []
  | fuel + 1, cycle, q =>
    match get_next_event cycle q with
    | .panicked => .panicked []
    | .notDue => .ok [] q
    | .due m rest =>
      match drain handler fuel cycle (handler m.1.event cycle rest) with
      | .ok ds q2 => .ok (m :: ds) q2
      | .panicked ds => .panicked (m :: ds)
      | .outOfFuel ds => .outOfFuel (m :: ds)

/-- Embeds `HW::handle_events` (scheduler.rs lines 17-22): advance the
cycle counter by the consumed ARM7 cycles, then drain all due events. -/
def handle_events (handler : Event → Nat → List QEntry → List QEntry)
    (fuel : Nat) (arm7_cycles : Nat) (s : Scheduler) : DrainResult :=
  drain handler fuel (s.cycle + arm7_cycles) s.queue

/-! ## Basic queue lemmas -/

theorem popMin_none_iff (q : List QEntry) : popMin q = none ↔ q = [] := by
  cases q with
  | nil => simp [popMin]
  | cons e es =>
    simp only [popMin]
    cases h : popMin es with
    | none => simp
    | some p =>
      rcases p with ⟨m, rest⟩
      by_cases hle : e.2 ≤ m.2 <;> simp [hle]

theorem popMin_min (q : List QEntry) (m : QEntry) (rest : List QEntry)
    (h : popMin q = some (m, rest)) : ∀ x ∈ q, m.2 ≤ x.2 := by
  induction q generalizing m rest with
  | nil => simp [popMin] at h
  | cons e es ih =>
    simp only [popMin] at h
    cases hes : popMin es with
    | none =>
      rw [hes] at h
      simp only [Option.some.injEq, Prod.mk.injEq] at h
      obtain ⟨rfl, rfl⟩ := h
      intro x hx
      rcases List.mem_cons.mp hx with hx | hx
      · exact hx ▸ le_refl _
      · exact absurd hx (by simp [(popMin_none_iff es).mp hes])
    | some p =>
      rcases p with ⟨m2, rest2⟩
      rw [hes] at h
      by_cases hle : e.2 ≤ m2.2
      · simp only [hle, if_pos, Option.some.injEq, Prod.mk.injEq] at h
        obtain ⟨rfl, rfl⟩ := h
        intro x hx
        rcases List.mem_cons.mp hx with hx | hx
        · exact hx ▸ le_refl _
        · exact le_trans hle (ih m2 rest2 hes x hx)
      · simp only [hle, if_neg, not_false_iff, Option.some.injEq, Prod.mk.injEq] at h
        obtain ⟨rfl, rfl⟩ := h
        intro x hx
        rcases List.mem_cons.mp hx with hx | hx
        · exact hx ▸ le_of_not_le hle
        · exact ih m2 rest2 hes x hx

theorem get_next_event_due_le (cycle : Nat) (q : List QEntry) (m : QEntry)
    (rest : List QEntry) (h : get_next_event cycle q = .due m rest) : m.2 ≤ cycle := by
  unfold get_next_event at h
  split at h
  · exact NextEvent.noConfusion h
  next m2 rest2 heq =>
    split at h
    next hle =>
      injection h with h1 h2
      exact h1 ▸ hle
    next => exact NextEvent.noConfusion h

theorem get_next_event_notDue (cycle : Nat) (q : List QEntry)
    (h : get_next_event cycle q = .notDue) : q ≠ [] ∧ ∀ p ∈ q, cycle < p.2 := by
  unfold get_next_event at h
  split at h
  next heq => exact NextEvent.noConfusion h
  next m2 rest2 heq =>
    split at h
    next => exact NextEvent.noConfusion h
    next hle =>
      refine ⟨?_, ?_⟩
      · intro hq
        rw [hq, popMin_none_iff [] |>.mpr rfl] at heq
        exact Option.noConfusion heq
      · intro p hp
        exact lt_of_lt_of_le (lt_of_not_le hle) (popMin_min q m2 rest2 heq p hp)

theorem drain_ok_spec (handler : Event → Nat → List QEntry → List QEntry)
    (fuel cycle : Nat) (q ds q2 : List QEntry)
    (h : drain handler fuel cycle q = .ok ds q2) :
    (∀ p ∈ ds, p.2 ≤ cycle) ∧ q2 ≠ [] ∧ (∀ p ∈ q2, cycle < p.2) := by
  induction fuel generalizing q ds with
  | zero => exact DrainResult.noConfusion h
  | succ n ih =>
    unfold drain at h
    split at h
    next hg => exact DrainResult.noConfusion h
    next hg =>
      injection h with h1 h2
      subst h1; subst h2
      rcases get_next_event_notDue cycle q hg with ⟨hne, hgt⟩
      exact ⟨by simp, hne, hgt⟩
    next m rest hg =>
      split at h
      next ds2 q3 hrec =>
        injection h with h1 h2
        subst h1; subst h2
        rcases ih (handler m.1.event cycle rest) ds2 hrec with ⟨hds, hne, hgt⟩
        refine ⟨?_, hne, hgt⟩
        intro p hp
        rcases List.mem_cons.mp hp with hp | hp
        · exact hp ▸ get_next_event_due_le cycle q m rest hg
        · exact hds p hp
      next ds2 hrec => exact DrainResult.noConfusion h
      next ds2 hrec => exact DrainResult.noConfusion h

/-- C1: for every queue state and every advance of the clock,
`handle_events` dispatches only entries whose due cycle is at most the
advanced current cycle (including entries the handlers enqueued during
the same drain), and on normal return every entry still pending is due
strictly after the current cycle, so exactly the due events were
dispatched. -/
theorem c1_dispatch_exactly_due (handler : Event → Nat → List QEntry → List QEntry)
    (fuel arm7_cycles : Nat) (s : Scheduler) (ds q2 : List QEntry)
    (h : handle_events handler fuel arm7_cycles s = .ok ds q2) :
    (∀ p ∈ ds, p.2 ≤ s.cycle + arm7_cycles) ∧
    (∀ p ∈ q2, s.cycle + arm7_cycles < p.2) := by
  rcases drain_ok_spec handler fuel (s.cycle + arm7_cycles) s.queue ds q2 h with ⟨h1, _, h3⟩
  exact ⟨h1, h3⟩

theorem c1_dispatch_exactly_due_witness :
    (∀ p ∈ [((⟨Event.HBlank, 0⟩ : EventWrapper), 3)], p.2 ≤ 0 + 5) ∧
    (∀ p ∈ [((⟨Event.VBlank, 0⟩ : EventWrapper), 10)], 0 + 5 < p.2) :=
  c1_dispatch_exactly_due (fun _ _ q => q) 2 5
    ⟨0, [(⟨Event.HBlank, 0⟩, 3), (⟨Event.VBlank, 0⟩, 10)]⟩
    [(⟨Event.HBlank, 0⟩, 3)] [(⟨Event.VBlank, 0⟩, 10)] (by decide)

/-- C7: consulting the event queue when it is empty aborts fatally (the
`peek().unwrap()` in `get_next_event`), and `handle_events` can only
return normally when the remaining queue is non-empty with every (hence
the earliest) pending due cycle strictly in the future. -/
theorem c7_empty_queue_fatal :
    (∀ cycle : Nat, get_next_event cycle [] = .panicked) ∧
    (∀ (handler : Event → Nat → List QEntry → List QEntry)
      (fuel arm7_cycles : Nat) (s : Scheduler) (ds q2 : List QEntry),
      handle_events handler fuel arm7_cycles s = .ok ds q2 →
      q2 ≠ [] ∧ ∀ p ∈ q2, s.cycle + arm7_cycles < p.2) := by
  refine ⟨fun _ => rfl, ?_⟩
  intro handler fuel arm7_cycles s ds q2 h
  exact (drain_ok_spec handler fuel (s.cycle + arm7_cycles) s.queue ds q2 h).2

theorem c7_empty_queue_fatal_witness :
    get_next_event 0 [] = .panicked ∧
    ([((⟨Event.VBlank, 0⟩ : EventWrapper), 10)] ≠ [] ∧
      ∀ p ∈ [((⟨Event.VBlank, 0⟩ : EventWrapper), 10)], 0 + 5 < p.2) :=
  ⟨c7_empty_queue_fatal.1 0,
    c7_empty_queue_fatal.2 (fun _ _ q => q) 1 5 ⟨0, [(⟨Event.VBlank, 0⟩, 10)]⟩
      [] [(⟨Event.VBlank, 0⟩, 10)] (by decide)⟩

/-- C8: `Scheduler::remove` (cancel) leaves the cycle counter alone,
removes at most one pending entry matching the given event by
discriminant and payload (the stored handler tag is ignored: an entry
with any handler tag whose event matches is removed), keeps every entry
with a non-matching event, and is a no-op raising no error when no
matching entry is pending. -/
theorem c8_cancel_at_most_one (s : Scheduler) (e : Event) :
    (s.remove e).cycle = s.cycle ∧
    ((∀ p ∈ s.queue, p.1.event ≠ e) → (s.remove e).queue = s.queue) ∧
    List.Sublist (s.remove e).queue s.queue ∧
    s.queue.length - 1 ≤ (s.remove e).queue.length ∧
    (∀ (t d : Nat) (rest : List QEntry),
      removeQ ((⟨e, t⟩, d) :: rest) e = rest) ∧
    (∀ p : QEntry, p.1.event ≠ e → (p ∈ (s.remove e).queue ↔ p ∈ s.queue)) := by
  refine ⟨rfl, ?_, ?_, ?_, ?_, ?_⟩
  · intro hall
    show removeQ s.queue e = s.queue
    unfold removeQ
    apply List.eraseP_of_forall_not
    intro p hp
    simpa using hall p hp
  · exact List.eraseP_sublist _
  · show s.queue.length - 1 ≤ (removeQ s.queue e).length
    unfold removeQ
    induction s.queue with
    | nil => simp
    | cons p rest ih =>
      by_cases hp : p.1.event = e
      · simp [List.eraseP_cons, hp]
      · have hb : (p.1.event == e) = false := by simp [hp]
        simp only [List.eraseP_cons, hb, cond_false, List.length_cons]
        omega
  · intro t d rest
    simp [removeQ, List.eraseP_cons]
  · intro p hp
    constructor
    · intro hmem
      exact (List.eraseP_sublist _).mem hmem
    · intro hmem
      show p ∈ List.eraseP (fun p => p.1.event == e) s.queue
      exact List.mem_eraseP_of_neg (by simpa using hp) |>.mpr hmem

theorem c8_cancel_at_most_one_witness :
    (Scheduler.remove ⟨7, [(⟨Event.HBlank, 0⟩, 3)]⟩ Event.VBlank).cycle = 7 ∧
    ((∀ p ∈ [((⟨Event.HBlank, 0⟩ : EventWrapper), 3)], p.1.event ≠ Event.VBlank) →
      (Scheduler.remove ⟨7, [(⟨Event.HBlank, 0⟩, 3)]⟩ Event.VBlank).queue =
        [(⟨Event.HBlank, 0⟩, 3)]) ∧
    List.Sublist (Scheduler.remove ⟨7, [(⟨Event.HBlank, 0⟩, 3)]⟩ Event.VBlank).queue
      [(⟨Event.HBlank, 0⟩, 3)] ∧
    [((⟨Event.HBlank, 0⟩ : EventWrapper), 3)].length - 1 ≤
      (Scheduler.remove ⟨7, [(⟨Event.HBlank, 0⟩, 3)]⟩ Event.VBlank).queue.length ∧
    (∀ (t d : Nat) (rest : List QEntry),
      removeQ ((⟨Event.VBlank, t⟩, d) :: rest) Event.VBlank = rest) ∧
    (∀ p : QEntry, p.1.event ≠ Event.VBlank →
      (p ∈ (Scheduler.remove ⟨7, [(⟨Event.HBlank, 0⟩, 3)]⟩ Event.VBlank).queue ↔
        p ∈ [((⟨Event.HBlank, 0⟩ : EventWrapper), 3)])) :=
  c8_cancel_at_most_one ⟨7, [(⟨Event.HBlank, 0⟩, 3)]⟩ Event.VBlank


/-! ## DMA executor (scheduler.rs `HW::run_dma`, lines 204-271) -/

/-- Embeds `AccessType` (mmu/mod.rs lines 59-63): non-sequential vs
sequential memory access, used for wait-state lookup. -/
inductive AccessType
  | N
  | S
deriving DecidableEq

/-- Embeds `DMAOccasion` as used by scheduler.rs (variants appearing at
lines 64, 72, 80, 214: `Immediate`, `HBlank`, `VBlank`,
`DSCartridge`); the defining `dma` module is outside the given
sources. -/
inductive DMAOccasion
  | Immediate
  | HBlank
  | VBlank
  | DSCartridge
deriving DecidableEq

/-- One memory access issued by the DMA loop through `read_fn` /
`write_fn` (scheduler.rs lines 228-229), recorded as a trace. -/
inductive MemAccess
  | read (addr : Nat)
  | write (addr : Nat)
deriving DecidableEq

/-- The `cnt` control fields of a DMA channel consumed by `run_dma`
(scheduler.rs lines 210-214): 2-bit address-control modes, unit size,
IRQ-on-complete, repeat, enable, start timing. -/
structure DMACnt where
  src_addr_ctrl : Nat
  dest_addr_ctrl : Nat
  transfer_32 : Bool
  irq : Bool
  dma_repeat : Bool
  enable : Bool
  start_timing : DMAOccasion
deriving DecidableEq

/-- The latched state of a `DMAChannel` consumed by `run_dma`
(scheduler.rs lines 206-214): count, source and destination latches
(`u32`, kept below `2^32`), and the control registers. -/
structure DMAChannel where
  count_latch : Nat
  sad_latch : Nat
  dad_latch : Nat
  cnt : DMACnt
deriving DecidableEq

/-- Wrapping 32-bit addition, embedding `u32::wrapping_add`. -/
def wadd (a b : Nat) : Nat := (a + b) % 4294967296

/-- Wrapping 32-bit subtraction, embedding `u32::wrapping_sub` for a
left operand below `2^32`. -/
def wsub (a b : Nat) : Nat := (a + 4294967296 - b % 4294967296) % 4294967296

/-- Embeds `addr & !addr_mask` (scheduler.rs lines 219-220): clears the
low bits given the unit alignment mask (`0x1` or `0x3`) by AND-ing with
the 32-bit complement of the mask. -/
def maskAligned (a mask : Nat) : Nat := a &&& (4294967295 ^^^ mask)

/-- Embeds the source address-control step (scheduler.rs lines 231-236);
mode 3 hits `panic!("Invalid DMA Source Address Control!")`, modelled as
`none`. -/
def srcStep (ctrl change a : Nat) : Option Nat :=
  match ctrl with
  | 0 => some (wadd a change)
  | 1 => some (wsub a change)
  | 2 => some a
  | _ => none

/-- Embeds the destination address-control step (scheduler.rs lines
237-242): modes 0 and 3 increment during the walk, 1 decrements, 2 holds;
anything else is `unreachable!`, modelled as `none`. -/
def destStep (ctrl change a : Nat) : Option Nat :=
  match ctrl with
  | 0 => some (wadd a change)
  | 1 => some (wsub a change)
  | 2 => some a
  | 3 => some (wadd a change)
  | _ => none

/-- Embeds the transfer loop of `run_dma` (scheduler.rs lines 221-244):
for each unit, classify the access as non-sequential (first) or
sequential, accumulate both access-time lookups, record the read from
the source and the write to the destination, then advance both
addresses.  Returns the final source and destination addresses, the
access trace in issue order, and the accumulated cycles. -/
def dmaLoop (atf : AccessType → Nat → Nat) (srcCtrl destCtrl change : Nat) :
    Nat → Nat → Nat → Bool → Option (Nat × Nat × List MemAccess × Nat)
  | 0, src, dest, _ => some (src, dest, [], 0)
  | count + 1, src, dest, first =>
    let ct := if first then AccessType.N else AccessType.S
    let c := atf ct src + atf ct dest
    match srcStep srcCtrl change src, destStep destCtrl change dest with
    | some src2, some dest2 =>
      match dmaLoop atf srcCtrl destCtrl change count src2 dest2 false with
      | some (srcF, destF, tr, cyc) =>
        some (srcF, destF, .read src :: .write dest :: tr, c + cyc)
      | none => none
    | _, _ => none

/-- Embeds `HW::run_dma` (scheduler.rs lines 204-271) for one channel:
snapshot the latches, compute the re-arm eligibility
(`cnt.enable = start_timing != Immediate && repeat`, line 214), mask
both addresses to the unit alignment, run the transfer loop, write the
walked addresses back into the latches — destination mode 3 reloading
the original (masked) destination — and add the 2 I-cycles that are then
consumed via `HW::clock` together with the accumulated access times.
The controller-disable and IRQ tail (lines 252-270) touches only state
outside the channel and is not part of the modelled result. -/
def run_dma (atf : AccessType → Nat → Nat) (ch : DMAChannel) :
    Option (DMAChannel × List MemAccess × Nat) :=
  let srcCtrl := ch.cnt.src_addr_ctrl
  let destCtrl := ch.cnt.dest_addr_ctrl
  let change : Nat := if ch.cnt.transfer_32 then 4 else 2
  let mask : Nat := if ch.cnt.transfer_32 then 3 else 1
  let src0 := maskAligned ch.sad_latch mask
  let dest0 := maskAligned ch.dad_latch mask
  let enable2 := decide (ch.cnt.start_timing ≠ .Immediate) && ch.cnt.dma_repeat
  match dmaLoop atf srcCtrl destCtrl change ch.count_latch src0 dest0 true with
  | none => none
  | some (srcF, destF, tr, cyc) =>
    some ({ ch with sad_latch := srcF,
                    dad_latch := if destCtrl = 3 then dest0 else destF,
                    cnt := { ch.cnt with enable := enable2 } }, tr, cyc + 2)

/-- The expected access trace of an increment/increment walk: read and
write pairs at addresses advancing by `change` each unit. -/
def incTrace (change : Nat) : Nat → Nat → Nat → List MemAccess
  | _, _, 0 => []
  | src, dest, n + 1 =>
    .read src :: .write dest :: incTrace change (wadd src change) (wadd dest change) n

/-- The expected accumulated access-time total of an increment/increment
walk: both lookups of the first unit use `N` access, later units `S`. -/
def incCycles (atf : AccessType → Nat → Nat) (change : Nat) :
    Nat → Nat → Bool → Nat → Nat
  | _, _, _, 0 => 0
  | src, dest, first, n + 1 =>
    let ct := if first then AccessType.N else AccessType.S
    atf ct src + atf ct dest + incCycles atf change (wadd src change) (wadd dest change) false n

/-- Iterated wrapping increment. -/
def iterWadd (change : Nat) : Nat → Nat → Nat
  | 0, a => a
  | n + 1, a => iterWadd change n (wadd a change)

theorem iterWadd_eq (change : Nat) (count : Nat) (a : Nat) (h : a < 4294967296) :
    iterWadd change count a = (a + change * count) % 4294967296 := by
  induction count generalizing a with
  | zero => simp [iterWadd, Nat.mod_eq_of_lt h]
  | succ n ih =>
    rw [iterWadd, ih (wadd a change) (Nat.mod_lt _ (by norm_num))]
    unfold wadd
    rw [Nat.mod_add_mod]
    congr 1
    ring

theorem dmaLoop_inc_inc (atf : AccessType → Nat → Nat) (change : Nat) :
    ∀ (count src dest : Nat) (first : Bool),
    dmaLoop atf 0 0 change count src dest first =
      some (iterWadd change count src, iterWadd change count dest,
        incTrace change src dest count, incCycles atf change src dest first count) := by
  intro count
  induction count with
  | zero => intro src dest first; rfl
  | succ n ih =>
    intro src dest first
    rw [dmaLoop]
    simp only [srcStep, destStep]
    rw [ih (wadd src change) (wadd dest change) false]
    rfl

theorem maskAligned_lt (a mask : Nat) (h : a < 4294967296) :
    maskAligned a mask < 4294967296 := by
  have h2 : a < 2 ^ 32 := by norm_num [h]
  unfold maskAligned
  rw [Nat.and_comm]
  have h3 := Nat.and_lt_two_pow (4294967295 ^^^ mask) h2
  norm_num at h3
  exact h3

/-- C2 (amended): a DMA run with 16-bit unit and increment/increment
address control first masks both latched addresses down to the 2-byte
alignment; it then leaves the source latch at that masked source plus
`2 * count` (mod `2^32`) and likewise for the destination latch, issues
exactly `count` read/write pairs at addresses advancing by 2, and the
cycles consumed via `HW::clock` are the sum of all access-time lookups
(first unit `N`-type, later units `S`-type) plus the 2 I-cycles. -/
theorem c2_dma_increment16 (atf : AccessType → Nat → Nat) (ch : DMAChannel)
    (h32 : ch.cnt.transfer_32 = false)
    (hsrc : ch.cnt.src_addr_ctrl = 0) (hdest : ch.cnt.dest_addr_ctrl = 0)
    (hs : ch.sad_latch < 4294967296) (hd : ch.dad_latch < 4294967296) :
    run_dma atf ch = some (
      { ch with
          sad_latch := (maskAligned ch.sad_latch 1 + 2 * ch.count_latch) % 4294967296,
          dad_latch := (maskAligned ch.dad_latch 1 + 2 * ch.count_latch) % 4294967296,
          cnt := { ch.cnt with
                    enable := decide (ch.cnt.start_timing ≠ .Immediate) && ch.cnt.dma_repeat } },
      incTrace 2 (maskAligned ch.sad_latch 1) (maskAligned ch.dad_latch 1) ch.count_latch,
      incCycles atf 2 (maskAligned ch.sad_latch 1) (maskAligned ch.dad_latch 1) true
        ch.count_latch + 2) := by
  unfold run_dma
  rw [hsrc, hdest, h32]
  simp only [Bool.false_eq_true, if_false]
  rw [dmaLoop_inc_inc atf 2 ch.count_latch (maskAligned ch.sad_latch 1)
    (maskAligned ch.dad_latch 1) true]
  rw [iterWadd_eq 2 ch.count_latch (maskAligned ch.sad_latch 1) (maskAligned_lt _ _ hs)]
  rw [iterWadd_eq 2 ch.count_latch (maskAligned ch.dad_latch 1) (maskAligned_lt _ _ hd)]
  norm_num

theorem c2_dma_increment16_witness :
    (256 : Nat) < 4294967296 ∧
    run_dma (fun _ _ => 1)
        (⟨2, 256, 512, ⟨0, 0, false, false, true, false, .VBlank⟩⟩ : DMAChannel) =
      some (
        { (⟨2, 256, 512, ⟨0, 0, false, false, true, false, .VBlank⟩⟩ : DMAChannel) with
            sad_latch := (maskAligned 256 1 + 2 * 2) % 4294967296,
            dad_latch := (maskAligned 512 1 + 2 * 2) % 4294967296,
            cnt := { (⟨0, 0, false, false, true, false, .VBlank⟩ : DMACnt) with
                      enable := decide (DMAOccasion.VBlank ≠ .Immediate) && true } },
        incTrace 2 (maskAligned 256 1) (maskAligned 512 1) 2,
        incCycles (fun _ _ => 1) 2 (maskAligned 256 1) (maskAligned 512 1) true 2 + 2) :=
  ⟨by norm_num,
    c2_dma_increment16 (fun _ _ => 1)
      ⟨2, 256, 512, ⟨0, 0, false, false, true, false, .VBlank⟩⟩
      rfl rfl rfl (by norm_num) (by norm_num)⟩

/-- C2 counterexample: with an unaligned original source address (1) and
count 1 the final source latch is 2 — the masked address 0 plus 2 — and
not original-plus-2N, which would be 3. -/
theorem c2_unaligned_counterexample :
    (run_dma (fun _ _ => 0)
        (⟨1, 1, 0, ⟨0, 0, false, false, false, false, .Immediate⟩⟩ : DMAChannel)).map
      (fun r => r.1.sad_latch) = some 2 ∧ (2 : Nat) ≠ 1 + 2 * 1 := by
  constructor
  · rfl
  · decide

/-- C6 (amended): whenever `run_dma` completes with destination
address-control mode 3 (increment-then-reload), the destination latch is
reloaded to the original destination address masked to the unit
alignment — the address the walk started from — although the walk itself
advanced the working destination. -/
theorem c6_dest_reload (atf : AccessType → Nat → Nat) (ch ch2 : DMAChannel)
    (tr : List MemAccess) (cyc : Nat)
    (hdest : ch.cnt.dest_addr_ctrl = 3)
    (h : run_dma atf ch = some (ch2, tr, cyc)) :
    ch2.dad_latch = maskAligned ch.dad_latch (if ch.cnt.transfer_32 then 3 else 1) := by
  simp only [run_dma, hdest] at h
  split at h
  next => exact Option.noConfusion h
  next srcF destF tr2 cyc2 heq =>
    simp only [Option.some.injEq, Prod.mk.injEq] at h
    obtain ⟨rfl, -, -⟩ := h
    simp

theorem c6_dest_reload_witness :
    (⟨1, 2, 8, ⟨0, 3, false, false, false, false, .Immediate⟩⟩ : DMAChannel).dad_latch =
      maskAligned 8
        (if (⟨1, 0, 8, ⟨0, 3, false, false, false, false, .Immediate⟩⟩ :
            DMAChannel).cnt.transfer_32 then 3 else 1) :=
  c6_dest_reload (fun _ _ => 0)
    ⟨1, 0, 8, ⟨0, 3, false, false, false, false, .Immediate⟩⟩
    ⟨1, 2, 8, ⟨0, 3, false, false, false, false, .Immediate⟩⟩
    [.read 0, .write 8] 2 rfl (by decide)

/-- C6 counterexample: with an unaligned original destination address
(1), 16-bit unit and destination mode 3, the reloaded destination latch
is the masked address 0, not the original address 1. -/
theorem c6_unaligned_counterexample :
    (run_dma (fun _ _ => 0)
        (⟨1, 0, 1, ⟨0, 3, false, false, false, false, .Immediate⟩⟩ : DMAChannel)).map
      (fun r => r.1.dad_latch) = some 0 ∧ (0 : Nat) ≠ 1 := by
  constructor
  · rfl
  · decide

/-! ## SPU channels (spu/mod.rs) -/

/-- Embeds `RepeatMode` as used by `Channel::next_addr` (spu/mod.rs
lines 211-218: `Manual`, `Loop`, `OneShot`); the defining `registers`
module is outside the given sources. -/
inductive RepeatMode
  | Manual
  | Loop
  | OneShot
deriving DecidableEq

/-- The fields of `ChannelControl` consumed by `next_addr` and the
busy transitions (spu/mod.rs): repeat mode and busy flag. -/
structure ChannelControl where
  repeat_mode : RepeatMode
  busy : Bool
deriving DecidableEq

/-- Embeds `Channel<T>` (spu/mod.rs lines 111-124): registers
(`src_addr`, `timer_val`, `loop_start`, `len`) and the sample-generation
cursor (`addr`, `num_bytes_left`, current `sample`, held
`last_sample`). -/
structure SPUChannel where
  cnt : ChannelControl
  src_addr : Nat
  timer_val : Nat
  loop_start : Nat
  len : Nat
  spec : ChannelSpec
  addr : Nat
  num_bytes_left : Nat
  sample : Int
  last_sample : Option Int
deriving DecidableEq

/-- Embeds `Channel::next_addr::<M>` (spu/mod.rs lines 205-227) with
`size = size_of::<M>()`: if bytes remain, return the current cursor and
advance it by one unit; when the step exhausts `num_bytes_left`, apply
the repeat-mode wrap policy — `Manual` stops silently, `Loop` rewinds
the cursor to `src_addr` and refills `num_bytes_left` from `len * 4`
staying busy, `OneShot` stops holding the final sample. -/
def next_addr (size : Nat) (ch : SPUChannel) : Option Nat × SPUChannel :=
  if ch.num_bytes_left ≠ 0 then
    let return_addr := ch.addr
    let addr2 := (ch.addr + size) % 4294967296
    let nbl := ch.num_bytes_left - size
    if nbl = 0 then
      match ch.cnt.repeat_mode with
      | .Manual =>
        (some return_addr,
          { ch with addr := addr2, num_bytes_left := nbl,
                    last_sample := some 0, cnt := { ch.cnt with busy := false } })
      | .Loop =>
        (some return_addr,
          { ch with addr := ch.src_addr, num_bytes_left := ch.len * 4,
                    last_sample := some 0, cnt := { ch.cnt with busy := true } })
      | .OneShot =>
        (some return_addr,
          { ch with addr := addr2, num_bytes_left := nbl,
                    last_sample := some ch.sample, cnt := { ch.cnt with busy := false } })
    else
      (some return_addr, { ch with addr := addr2, num_bytes_left := nbl })
  else
    (none, ch)

/-- Embeds the delay computation of `Channel::schedule` (spu/mod.rs line
244): `(-(timer_val as i16) as u16) as usize`, the two's-complement
negation of the 16-bit reload value reinterpreted as unsigned. -/
def neg_i16_as_u16 (t : Nat) : Nat := (65536 - t % 65536) % 65536

/-- Embeds `Channel::schedule` (spu/mod.rs lines 242-246): a non-zero
timer reload arms the next `StepAudioChannel` event for this channel
with the negated delay; a zero reload schedules nothing. -/
def channel_schedule (ch : SPUChannel) (s : Scheduler) : Scheduler :=
  if ch.timer_val ≠ 0 then
    s.schedule (.StepAudioChannel ch.spec) (neg_i16_as_u16 ch.timer_val)
  else s

/-- The due cycle currently attached to an event in the queue (`find?`
by the wrapper key). -/
def findDue (q : List QEntry) (e : Event) : Option Nat :=
  (q.find? (fun p => p.1.event == e)).map (fun p => p.2)

theorem findDue_pushQ (e : Event) (d : Nat) :
    ∀ q : List QEntry, findDue (pushQ q e d) e = some d := by
  intro q
  induction q with
  | nil => simp [pushQ, findDue]
  | cons p rest ih =>
    by_cases hpe : p.1.event = e
    · simp [pushQ, findDue, hpe, List.any_cons]
    · have hb : (p.1.event == e) = false := by simp [hpe]
      cases hra : rest.any (fun p => p.1.event == e) with
      | false =>
        simp [pushQ, findDue, List.any_cons, hb, hra]
      | true =>
        have hq : pushQ (p :: rest) e d =
            p :: rest.map (fun x => if x.1.event == e then (x.1, d) else x) := by
          simp [pushQ, List.any_cons, hb, hra, hpe]
        have hq2 : pushQ rest e d =
            rest.map (fun x => if x.1.event == e then (x.1, d) else x) := by
          simp [pushQ, hra]
        unfold findDue at ih ⊢
        rw [hq2] at ih
        rw [hq, List.find?_cons_of_neg]
        · exact ih
        · simp [hb]

/-- C4: a channel whose cursor exhausts `num_bytes_left` during a step
rewinds, in `Loop` repeat mode, its cursor to `src_addr` with
`num_bytes_left` refilled to `len * 4` while staying busy; in `Manual`
repeat mode it goes non-busy and the held last sample becomes silence
(zero). -/
theorem c4_exhaustion_wrap (ch : SPUChannel) (size : Nat) (h0 : 0 < size)
    (hnbl : ch.num_bytes_left = size) :
    (ch.cnt.repeat_mode = .Loop →
      (next_addr size ch).2.addr = ch.src_addr ∧
      (next_addr size ch).2.num_bytes_left = ch.len * 4 ∧
      (next_addr size ch).2.cnt.busy = true) ∧
    (ch.cnt.repeat_mode = .Manual →
      (next_addr size ch).2.cnt.busy = false ∧
      (next_addr size ch).2.last_sample = some 0) := by
  have hne : ch.num_bytes_left ≠ 0 := by omega
  have hz : ch.num_bytes_left - size = 0 := by omega
  constructor
  · intro hmode
    simp [next_addr, hne, hz, hmode]
  · intro hmode
    simp [next_addr, hne, hz, hmode]

theorem c4_exhaustion_wrap_witness :
    ((⟨⟨.Loop, true⟩, 100, 5, 0, 3, .Base 0, 108, 2, 7, none⟩ :
        SPUChannel).cnt.repeat_mode = .Loop →
      (next_addr 2 ⟨⟨.Loop, true⟩, 100, 5, 0, 3, .Base 0, 108, 2, 7, none⟩).2.addr = 100 ∧
      (next_addr 2 ⟨⟨.Loop, true⟩, 100, 5, 0, 3, .Base 0, 108, 2, 7, none⟩).2.num_bytes_left =
        3 * 4 ∧
      (next_addr 2 ⟨⟨.Loop, true⟩, 100, 5, 0, 3, .Base 0, 108, 2, 7, none⟩).2.cnt.busy = true) ∧
    ((⟨⟨.Loop, true⟩, 100, 5, 0, 3, .Base 0, 108, 2, 7, none⟩ :
        SPUChannel).cnt.repeat_mode = .Manual →
      (next_addr 2 ⟨⟨.Loop, true⟩, 100, 5, 0, 3, .Base 0, 108, 2, 7, none⟩).2.cnt.busy = false ∧
      (next_addr 2 ⟨⟨.Loop, true⟩, 100, 5, 0, 3, .Base 0, 108, 2, 7, none⟩).2.last_sample =
        some 0) :=
  c4_exhaustion_wrap ⟨⟨.Loop, true⟩, 100, 5, 0, 3, .Base 0, 108, 2, 7, none⟩ 2
    (by decide) rfl

/-- C5: for a 16-bit timer reload value `t`, `Channel::schedule` arms
the next `StepAudioChannel` event for this channel with delay
`(0x10000 - t) mod 0x10000` — the two's-complement negation of `t` read
as unsigned — and schedules nothing at all when `t = 0`, leaving the
scheduler untouched. -/
theorem c5_timer_rearm (ch : SPUChannel) (s : Scheduler) (ht : ch.timer_val < 65536) :
    (ch.timer_val ≠ 0 →
      findDue (channel_schedule ch s).queue (.StepAudioChannel ch.spec) =
        some (s.cycle + (65536 - ch.timer_val) % 65536)) ∧
    (ch.timer_val = 0 → channel_schedule ch s = s) := by
  constructor
  · intro hne
    have : neg_i16_as_u16 ch.timer_val = (65536 - ch.timer_val) % 65536 := by
      unfold neg_i16_as_u16
      rw [Nat.mod_eq_of_lt ht]
    simp only [channel_schedule, hne, if_pos, ne_eq, not_false_iff, Scheduler.schedule, this]
    exact findDue_pushQ _ _ s.queue
  · intro hzero
    simp [channel_schedule, hzero]

theorem c5_timer_rearm_witness :
    ((⟨⟨.Loop, true⟩, 0, 3, 0, 0, .Base 1, 0, 0, 0, none⟩ : SPUChannel).timer_val ≠ 0 →
      findDue
        (channel_schedule ⟨⟨.Loop, true⟩, 0, 3, 0, 0, .Base 1, 0, 0, 0, none⟩
          ⟨7, []⟩).queue (.StepAudioChannel (.Base 1)) =
        some (7 + (65536 - 3) % 65536)) ∧
    ((⟨⟨.Loop, true⟩, 0, 3, 0, 0, .Base 1, 0, 0, 0, none⟩ : SPUChannel).timer_val = 0 →
      channel_schedule ⟨⟨.Loop, true⟩, 0, 3, 0, 0, .Base 1, 0, 0, 0, none⟩ ⟨7, []⟩ = ⟨7, []⟩) :=
  c5_timer_rearm ⟨⟨.Loop, true⟩, 0, 3, 0, 0, .Base 1, 0, 0, 0, none⟩ ⟨7, []⟩ (by decide)

/-! ## Audio heartbeat (spu/mod.rs `SPU::new`, `SPU::generate_sample`) -/

/-- Embeds the heartbeat period computation of `SPU::new` (spu/mod.rs
line 37): `crate::nds::NDS::CLOCK_RATE / audio.sample_rate()`; the two
constants live outside the given sources, so they stay parameters. -/
def clocks_per_sample (clock_rate sample_rate : Nat) : Nat :=
  clock_rate / sample_rate

/-- Embeds the scheduler effect of `SPU::new` (spu/mod.rs line 38): the
initial `GenerateAudioSample` heartbeat scheduled at one period. -/
def spu_new_schedule (P : Nat) (s : Scheduler) : Scheduler :=
  s.schedule .GenerateAudioSample P

/-- Embeds the scheduler effect of `SPU::generate_sample` (spu/mod.rs
lines 51-66): the very first statement (line 52) re-arms the heartbeat
one period ahead; the subsequent mixing (lines 54-65) never touches the
scheduler. -/
def generate_sample_schedule (P : Nat) (s : Scheduler) : Scheduler :=
  s.schedule .GenerateAudioSample P

/-- The queue effect of `HW::handle_event` restricted to the heartbeat:
`Event::GenerateAudioSample => self.spu.generate_sample(&mut
self.scheduler)` (scheduler.rs line 85); other events are irrelevant to
the heartbeat chain and leave the queue alone here. -/
def heartbeatHandler (P : Nat) : Event → Nat → List QEntry → List QEntry :=
  fun e cycle q =>
    match e with
    | .GenerateAudioSample => (generate_sample_schedule P ⟨cycle, q⟩).queue
    | _ => q

theorem heartbeat_step (P k : Nat) (hP : 0 < P) :
    handle_events (heartbeatHandler P) 2 P ⟨k, [(⟨.GenerateAudioSample, 0⟩, k + P)]⟩ =
      .ok [(⟨.GenerateAudioSample, 0⟩, k + P)] [(⟨.GenerateAudioSample, 0⟩, k + P + P)] := by
  have hnot : ¬ (k + P + P ≤ k + P) := by omega
  unfold handle_events
  unfold drain
  have h1 : get_next_event (k + P)
      [((⟨Event.GenerateAudioSample, 0⟩ : EventWrapper), k + P)] =
      .due (⟨Event.GenerateAudioSample, 0⟩, k + P) [] := by
    simp [get_next_event, popMin]
  rw [h1]
  have h2 : heartbeatHandler P Event.GenerateAudioSample (k + P) [] =
      [(⟨Event.GenerateAudioSample, 0⟩, k + P + P)] := by
    simp [heartbeatHandler, generate_sample_schedule, Scheduler.schedule, pushQ]
  simp only [h2]
  unfold drain
  have h3 : get_next_event (k + P)
      [((⟨Event.GenerateAudioSample, 0⟩ : EventWrapper), k + P + P)] = .notDue := by
    simp [get_next_event, popMin, hnot]
  rw [h3]

/-- C9: once `SPU::new` schedules the first heartbeat, each firing of
`generate_sample` re-arms it first with the fixed delay
`clocks_per_sample = clock_rate / sample_rate`, so from the state after
`n` firings (cycle `n * P`, exactly one pending heartbeat due at
`(n + 1) * P`) advancing the clock one period dispatches exactly that
one heartbeat and leaves again exactly one pending heartbeat, due one
period later — for every `n`, so firings continue unboundedly at exact
`clocks_per_sample` spacing. -/
theorem c9_heartbeat_perpetual (clock_rate sample_rate n : Nat)
    (hP : 0 < clocks_per_sample clock_rate sample_rate) :
    spu_new_schedule (clocks_per_sample clock_rate sample_rate) ⟨0, []⟩ =
      ⟨0, [(⟨.GenerateAudioSample, 0⟩, clocks_per_sample clock_rate sample_rate)]⟩ ∧
    handle_events (heartbeatHandler (clocks_per_sample clock_rate sample_rate)) 2
        (clocks_per_sample clock_rate sample_rate)
        ⟨n * clocks_per_sample clock_rate sample_rate,
          [(⟨.GenerateAudioSample, 0⟩, (n + 1) * clocks_per_sample clock_rate sample_rate)]⟩ =
      .ok [(⟨.GenerateAudioSample, 0⟩, (n + 1) * clocks_per_sample clock_rate sample_rate)]
        [(⟨.GenerateAudioSample, 0⟩, (n + 2) * clocks_per_sample clock_rate sample_rate)] := by
  constructor
  · simp [spu_new_schedule, Scheduler.schedule, pushQ]
  · have e1 : (n + 1) * clocks_per_sample clock_rate sample_rate =
        n * clocks_per_sample clock_rate sample_rate +
          clocks_per_sample clock_rate sample_rate := by ring
    have e2 : (n + 2) * clocks_per_sample clock_rate sample_rate =
        n * clocks_per_sample clock_rate sample_rate +
          clocks_per_sample clock_rate sample_rate +
          clocks_per_sample clock_rate sample_rate := by ring
    rw [e1, e2]
    exact heartbeat_step (clocks_per_sample clock_rate sample_rate)
      (n * clocks_per_sample clock_rate sample_rate) hP

theorem c9_heartbeat_perpetual_witness :
    spu_new_schedule (clocks_per_sample 6 3) ⟨0, []⟩ =
      ⟨0, [(⟨.GenerateAudioSample, 0⟩, clocks_per_sample 6 3)]⟩ ∧
    handle_events (heartbeatHandler (clocks_per_sample 6 3)) 2 (clocks_per_sample 6 3)
        ⟨0 * clocks_per_sample 6 3,
          [(⟨.GenerateAudioSample, 0⟩, (0 + 1) * clocks_per_sample 6 3)]⟩ =
      .ok [(⟨.GenerateAudioSample, 0⟩, (0 + 1) * clocks_per_sample 6 3)]
        [(⟨.GenerateAudioSample, 0⟩, (0 + 2) * clocks_per_sample 6 3)] :=
  c9_heartbeat_perpetual 6 3 0 (by decide)

/-! ## Display timing interrupts (scheduler.rs `Event::StartNextLine`) -/

/-- Modelled from the spec: the per-CPU display-status register
(`DISPSTAT`) with its VBlank-IRQ-enable bit and the configured
vertical-counter match line; its defining gpu module is outside the
given sources, only these two fields are consulted by the embedded
scheduler code (scheduler.rs lines 51-61). -/
structure DISPSTAT where
  vblank_irq_enable : Bool
  vcount_setting : Nat
deriving DecidableEq

/-- The interrupt-request bits OR-ed into an `InterruptController` by
the `StartNextLine` handler: `InterruptRequest::VBLANK` and
`InterruptRequest::VCOUNTER_MATCH`. -/
structure IntRequest where
  vblank : Bool
  vcounter_match : Bool
deriving DecidableEq

/-- Embeds the interrupt-raising part of the `Event::StartNextLine`
handler (scheduler.rs lines 47-62) given the outputs of
`gpu.start_next_line` (the advanced `vcount` and the `start_vblank`
flag): when VBlank starts, each context with `VBLANK_IRQ_ENABLE` gets
the VBlank request; then each context whose
`dispstat.contains(DISPSTATFlags::VBLANK_IRQ_ENABLE) && vcount ==
dispstat.vcount_setting` gets the VCOUNTER_MATCH request —
`check_dispstats` (lines 273-276) applies the closure to
`(dispstat7, interrupts[0])` and `(dispstat9, interrupts[1])`. -/
def start_next_line_irqs (vcount : Nat) (start_vblank : Bool)
    (d7 d9 : DISPSTAT) (i7 i9 : IntRequest) : IntRequest × IntRequest :=
  let i7v := if start_vblank && d7.vblank_irq_enable then
    { i7 with vblank := true } else i7
  let i9v := if start_vblank && d9.vblank_irq_enable then
    { i9 with vblank := true } else i9
  (if d7.vblank_irq_enable && vcount == d7.vcount_setting then
      { i7v with vcounter_match := true } else i7v,
   if d9.vblank_irq_enable && vcount == d9.vcount_setting then
      { i9v with vcounter_match := true } else i9v)

/-- C3: evaluating the embedded `StartNextLine` interrupt logic at a
state where the advanced line counter equals the ARM7 context's
configured match line but that context's VBlank IRQ enable bit is
clear: the vertical-counter-match request bit stays clear, although the
claim (and the spec) says it is set whenever the counter equals the
match line; with the (unrelated) VBlank IRQ enable bit set instead, the
same input does set it — the code gates the vcount-match interrupt on
`DISPSTATFlags::VBLANK_IRQ_ENABLE` (scheduler.rs line 58). -/
theorem c3_vcount_match_gated_on_vblank_enable :
    (5 : Nat) = (⟨false, 5⟩ : DISPSTAT).vcount_setting ∧
    (start_next_line_irqs 5 false ⟨false, 5⟩ ⟨false, 0⟩
        ⟨false, false⟩ ⟨false, false⟩).1.vcounter_match = false ∧
    (start_next_line_irqs 5 false ⟨true, 5⟩ ⟨false, 0⟩
        ⟨false, false⟩ ⟨false, false⟩).1.vcounter_match = true := by
  refine ⟨rfl, rfl, rfl⟩

/-! ## MMU byte assembly helpers (mmu/mod.rs lines 26-50) -/

/-- Embeds `HW::read_from_bytes::<T>` (mmu/mod.rs lines 26-32): OR
together `size_of::<T>()` device bytes, byte `i` read at `addr + i` and
shifted into position `8 * i` (little endian, low byte at the lowest
address). -/
def read_from_bytes (read_fn : Nat → Nat) (addr : Nat) : Nat → Nat
  | 0 => 0
  | i + 1 => (read_fn (addr + i) <<< (8 * i)) ||| read_from_bytes read_fn addr i

/-- Embeds `HW::write_from_bytes::<T>` (mmu/mod.rs lines 34-39) with
the device instantiated as a byte memory `Nat → Nat` and `write_fn` as
pointwise update: byte `i` of the value, `(value >> 8 * i) & 0xFF`, is
written to `addr + i`. -/
def write_from_bytes (mem : Nat → Nat) (addr v : Nat) : Nat → (Nat → Nat)
  | 0 => mem
  | i + 1 =>
    Function.update (write_from_bytes mem addr v i) (addr + i) ((v >>> (8 * i)) &&& 255)

/-- Embeds `HW::read_byte_from_value::<T>` (mmu/mod.rs lines 41-44):
`(value >> (byte * 8)) & 0xFF`. -/
def read_byte_from_value (v byte : Nat) : Nat := (v >>> (byte * 8)) &&& 255

/-- Embeds `HW::write_byte_to_value::<T>` (mmu/mod.rs lines 46-50) for a
`T` of width `w` bytes: `value & !(0xFF << (8 * byte)) | new_value <<
(8 * byte)`, the `!` being complement at bit width `8 * w` (XOR with the
all-ones value of `T`). -/
def write_byte_to_value (w v byte new_value : Nat) : Nat :=
  (v &&& ((2 ^ (8 * w) - 1) ^^^ (255 <<< (8 * byte)))) ||| (new_value <<< (8 * byte))

theorem testBit_255 (k : Nat) : (255 : Nat).testBit k = decide (k < 8) := by
  rw [show (255 : Nat) = 2 ^ 8 - 1 by norm_num, Nat.testBit_two_pow_sub_one]

theorem testBit_of_lt_256 (b k : Nat) (hb : b < 256) (hk : 8 ≤ k) :
    b.testBit k = false := by
  apply Nat.testBit_lt_two_pow
  calc b < 256 := hb
    _ = 2 ^ 8 := by norm_num
    _ ≤ 2 ^ k := Nat.pow_le_pow_right (by norm_num) hk

theorem write_from_bytes_get (mem : Nat → Nat) (addr v : Nat) :
    ∀ size j, j < size →
      write_from_bytes mem addr v size (addr + j) = (v >>> (8 * j)) &&& 255 := by
  intro size
  induction size with
  | zero => intro j hj; omega
  | succ n ih =>
    intro j hj
    show Function.update (write_from_bytes mem addr v n) (addr + n)
      ((v >>> (8 * n)) &&& 255) (addr + j) = _
    by_cases hjn : j = n
    · subst hjn
      rw [Function.update_same]
    · rw [Function.update_noteq (by omega)]
      exact ih j (by omega)

theorem read_from_bytes_assemble (v : Nat) :
    ∀ (size : Nat) (m : Nat → Nat) (addr : Nat),
      (∀ j, j < size → m (addr + j) = (v >>> (8 * j)) &&& 255) →
      read_from_bytes m addr size = v % 2 ^ (8 * size) := by
  intro size
  induction size with
  | zero => intro m addr _; simp [read_from_bytes, Nat.mod_one]
  | succ n ih =>
    intro m addr hbytes
    show (m (addr + n) <<< (8 * n)) ||| read_from_bytes m addr n = _
    rw [hbytes n (by omega), ih m addr (fun j hj => hbytes j (by omega))]
    apply Nat.eq_of_testBit_eq
    intro k
    simp only [Nat.testBit_or, Nat.testBit_shiftLeft, Nat.testBit_and,
      Nat.testBit_shiftRight, Nat.testBit_mod_two_pow, testBit_255, ge_iff_le]
    by_cases h1 : k < 8 * n
    · have h2 : ¬ (8 * n ≤ k) := by omega
      have h3 : k < 8 * (n + 1) := by omega
      simp [h1, h2, h3]
    · by_cases h4 : k < 8 * (n + 1)
      · have h5 : 8 * n ≤ k := by omega
        have h6 : k - 8 * n < 8 := by omega
        have h7 : 8 * n + (k - 8 * n) = k := by omega
        simp [h1, h4, h5, h6, h7]
      · have h5 : 8 * n ≤ k := by omega
        have h6 : ¬ (k - 8 * n < 8) := by omega
        simp [h1, h4, h5, h6]

/-- C10: the little-endian helpers round-trip.  For a value of `size`
bytes (1, 2 or 4): writing it byte-wise with `write_from_bytes` and
reading back from the same address with `read_from_bytes` returns the
value; and for every byte index `i` of the value,
`read_byte_from_value` after `write_byte_to_value` at `i` returns the
byte written while every other byte index of the value reads
unchanged. -/
theorem c10_little_endian_roundtrip (mem : Nat → Nat) (addr v b i size : Nat)
    (_hsize : size = 1 ∨ size = 2 ∨ size = 4)
    (hv : v < 2 ^ (8 * size)) (hi : i < size) (hb : b < 256) :
    read_from_bytes (write_from_bytes mem addr v size) addr size = v ∧
    read_byte_from_value (write_byte_to_value size v i b) i = b ∧
    (∀ j, j < size → j ≠ i →
      read_byte_from_value (write_byte_to_value size v i b) j =
        read_byte_from_value v j) := by
  refine ⟨?_, ?_, ?_⟩
  · rw [read_from_bytes_assemble v size _ addr (write_from_bytes_get mem addr v size),
      Nat.mod_eq_of_lt hv]
  · apply Nat.eq_of_testBit_eq
    intro k
    unfold read_byte_from_value write_byte_to_value
    simp only [Nat.testBit_and, Nat.testBit_shiftRight, Nat.testBit_or,
      Nat.testBit_shiftLeft, Nat.testBit_xor, Nat.testBit_two_pow_sub_one,
      testBit_255, ge_iff_le]
    by_cases hk : k < 8
    · have h1 : 8 * i ≤ i * 8 + k := by omega
      have h2 : i * 8 + k - 8 * i = k := by omega
      have h3 : i * 8 + k < 8 * size := by omega
      simp [h1, h2, h3, hk]
    · have hbk : b.testBit k = false := testBit_of_lt_256 b k hb (by omega)
      simp [hk, hbk]
  · intro j hj hji
    apply Nat.eq_of_testBit_eq
    intro k
    unfold read_byte_from_value write_byte_to_value
    simp only [Nat.testBit_and, Nat.testBit_shiftRight, Nat.testBit_or,
      Nat.testBit_shiftLeft, Nat.testBit_xor, Nat.testBit_two_pow_sub_one,
      testBit_255, ge_iff_le]
    by_cases hk : k < 8
    · have h3 : j * 8 + k < 8 * size := by omega
      rcases Nat.lt_or_ge j i with hlt | hge
      · have h1 : ¬ (8 * i ≤ j * 8 + k) := by omega
        simp [h1, h3, hk]
      · have hgt : i < j := by omega
        have h1 : 8 * i ≤ j * 8 + k := by omega
        have h2 : ¬ (j * 8 + k - 8 * i < 8) := by omega
        have hbk : b.testBit (j * 8 + k - 8 * i) = false :=
          testBit_of_lt_256 b _ hb (by omega)
        simp [h1, h2, h3, hk, hbk]
    · simp [hk]

theorem c10_little_endian_roundtrip_witness :
    read_from_bytes (write_from_bytes (fun _ => 0) 10 43981 2) 10 2 = 43981 ∧
    read_byte_from_value (write_byte_to_value 2 43981 1 127) 1 = 127 ∧
    (∀ j, j < 2 → j ≠ 1 →
      read_byte_from_value (write_byte_to_value 2 43981 1 127) j =
        read_byte_from_value 43981 j) :=
  c10_little_endian_roundtrip (fun _ => 0) 10 43981 127 1 2
    (by norm_num) (by norm_num) (by norm_num) (by norm_num)

end NDSEmu
